import Mathlib

/-!
# Sudoku 2.0: the command-line driver `main.cpp`

A shallow embedding of the driver of the command-line Sudoku game and the
properties of it that the specification states.

Conventions of the embedding.

* A token read by `cin >> s` is a Lean `String`; `s.size()` is `s.data.length`
  and `s.at(0)` is the head of `s.data`.  A `char` compared with an integer
  literal is compared through `Char.toNat`.
* The text that the transfer appends to `result` is a `List Char` with one
  element for each `char` (each byte) of the `std::string`, so that its length
  is `result.size()` and its `n`-th element is `result.at(n)`.
* `vector<vector<char> >` is `List (List Char)`.  `operator[]` is unchecked in
  C++ and a store outside the vector is undefined behaviour.  Every store
  `puzzle[row][i] = c` is recorded, in order, in a trace, so that staying
  inside the grid is a property that can be stated.  A store whose `row` is
  not a row of the vector goes through a row that does not exist: the program
  goes no further and no grid is returned.  A store whose `row` is a row of
  the vector and whose `i` lies past the end of that row is written behind the
  nine cells of the row: it is in the trace, the loop goes on, and the
  embedding, which has no storage behind a row, leaves the cells of the grid
  as they are.
* Terminal output is a list of `Event`s (colours and exact wording are left
  out).  Standard input is the list of whitespace-separated tokens that the
  successive `cin >> s` read.
* A function that may fail to return (by `exit`, by an uncaught exception, or
  by looping for ever on an exhausted input) returns a `Run`.
* `GridTable.h` is not part of the sources at hand: the table is represented
  by its 9x9 cell matrix, `insert` is a parameter of the game loop, and the
  two queries used by `checkSolution` are modelled from the specification.
-/

namespace Sudoku

/-! ## Globals -/

/-- The constant `ROWS`. -/
def ROWS : Nat := 9

/-- The constant `COLS`. -/
def COLS : Nat := 9

/-- A `vector<vector<char> >`. -/
abbrev Grid := List (List Char)

/-- What the program writes to the terminal, one constructor per message. -/
inductive Event
  /-- "Invalid input, please try again..." (`printInvalid`, `validateOption`, `validateLevel`). -/
  | invalid
  /-- The in-game menu followed by "Enter choice (p, e, c, q): ". -/
  | optionsMenu
  /-- The difficulty menu followed by "Please enter your level (e, i, d, r, q): ". -/
  | levelMenu
  /-- "Enter value: ". -/
  | enterValue
  /-- "Enter X: ". -/
  | enterX
  /-- "Enter Y: ". -/
  | enterY
  /-- The rendering of the table by `table.print()`. -/
  | table (cells : Grid)
  /-- The message `CHECKING`. -/
  | checking
  /-- The message `INCOMPLETE`. -/
  | incomplete
  /-- "Sorry, it looks like the puzzle is  incorrect. ..." -/
  | incorrect
  /-- The three congratulation lines. -/
  | congratulations
  /-- "* Thanks for playing Sudoku! * " (`printMsgAndExit`). -/
  | goodbye
  /-- The message `ERROR`, printed by `printErrorAndExit(ERROR)`. -/
  | error
  /-- "Downloading puzzle from the web. . ." -/
  | downloading
  /-- "Something went wrong, please check that you have an internet connection ...". -/
  | noConnection
  /-- The blocking transfer `curl_easy_perform` of the given URL (not visible on the terminal). -/
  | fetch (url : String)
  deriving DecidableEq, Repr

/-- The ways in which a call does not return to its caller. -/
inductive Halt
  /-- The process ended through `exit(code)`. -/
  | exit (code : Nat)
  /-- The exception `std::out_of_range`, thrown by `substr` for a position `pos`
  beyond the `size` of the string, left `main` uncaught. -/
  | outOfRange (pos size : Nat)
  /-- The store `puzzle[row][i]` was executed for a `row` that is not a row of
  the vector: undefined behaviour, in practice a segmentation fault. -/
  | outsideVector (row i : Nat)
  /-- Standard input is exhausted inside a prompt loop, which then never exits. -/
  | stalled
  /-- The step budget of the embedding ran out (never the case for the budgets used below). -/
  | fuel
  deriving DecidableEq, Repr

/-- The outcome of running a piece of the program: the output it wrote, and
either the value it returned or the way it failed to return. -/
inductive Run (α : Type)
  | done (out : List Event) (a : α)
  | halt (out : List Event) (h : Halt)
  deriving DecidableEq, Repr

/-- The same outcome, after `pre` has been written first. -/
def Run.emit {α : Type} (pre : List Event) : Run α → Run α
  | .done out a => .done (pre ++ out) a
  | .halt out h => .halt (pre ++ out) h

/-- Sequencing: run `r`, then `f` on the value it returned. -/
def Run.bind {α β : Type} (r : Run α) (f : α → Run β) : Run β :=
  match r with
  | .done out a => (f a).emit out
  | .halt out h => .halt out h

/-- The output written by a run. -/
def Run.output {α : Type} : Run α → List Event
  | .done out _ => out
  | .halt out _ => out

/-- A run that stopped because the step budget of the embedding ran out. -/
def Run.outOfFuel {α : Type} : Run α → Prop
  | .done _ _ => False
  | .halt _ h => h = Halt.fuel

/-! ## Exits -/

/-- The function `printMsgAndExit`: the goodbye message, then `exit(1)`. -/
def printMsgAndExit {α : Type} : Run α := .halt [Event.goodbye] (Halt.exit 1)

/-- The call `printErrorAndExit(ERROR)`: the message, then `exit(0)`. -/
def printErrorAndExit {α : Type} : Run α := .halt [Event.error] (Halt.exit 0)

/-! ## Input validators -/

/-- The function `validateCoord`: the verdict and what it printed. -/
def validateCoord (coord : String) : Bool × List Event :=
  match coord.data with
  | [] => (false, [])                                   -- coord == ""
  | c :: rest =>                                        -- c is coord.at(0)
    if (c :: rest).length > 1 ∨ c.toNat < 48 ∨ c.toNat > 56 then (false, [Event.invalid])
    else (true, [])

/-- The function `validateValue`: the verdict and what it printed. -/
def validateValue (val : String) : Bool × List Event :=
  match val.data with
  | [] => (false, [])                                   -- val == ""
  | c :: rest =>                                        -- c is val.at(0)
    if (c :: rest).length > 1 ∨ c.toNat < 49 ∨ c.toNat > 57 then (false, [Event.invalid])
    else (true, [])

/-- The function `validateOption`: the verdict and what it printed. -/
def validateOption (input : String) : Bool × List Event :=
  match input.data with
  | [] => (false, [])                                   -- input == ""
  | c :: _ =>                                           -- c is input.at(0)
    if c = 'p' ∨ c = 'e' ∨ c = 'q' ∨ c = 'c' then (true, [])
    else (false, [Event.invalid])

/-- The function `validateLevel`: the verdict and what it printed. -/
def validateLevel (input : String) : Bool × List Event :=
  match input.data with
  | [] => (false, [])                                   -- input == ""
  | c :: _ =>                                           -- c is input.at(0)
    if c = 'e' ∨ c = 'i' ∨ c = 'd' ∨ c = 'r' ∨ c = 'q' then (true, [])
    else (false, [Event.invalid])

/-! ## Prompt loops -/

/-- The loop `while (validate(s) == false) { cout << prompt; cin >> s; }` that
`printOptions`, `printMenu`, `fetchValue` and `fetchCoords` all run, started
with the current content `s` of the string and the tokens still to be read.
It returns the accepted string and the tokens left.  When no token is left the
extraction fails, `s` keeps its content and the loop goes round for ever. -/
def promptLoop (validate : String → Bool × List Event) (prompt : Event) :
    List String → String → Run (String × List String)
  | [], s =>
    if (validate s).1 then .done (validate s).2 (s, [])
    else .halt ((validate s).2 ++ [prompt]) Halt.stalled
  | tok :: rest, s =>
    if (validate s).1 then .done (validate s).2 (s, tok :: rest)
    else (promptLoop validate prompt rest tok).emit ((validate s).2 ++ [prompt])

/-- The character `s.at(0)` of a string that a validator has accepted. -/
def at0 (s : String) : Char := s.data.headD ' '

/-- The function `printOptions`: the command character and the tokens left. -/
def printOptions (tokens : List String) : Run (Char × List String) :=
  (promptLoop validateOption Event.optionsMenu tokens "").bind
    fun r => .done [] (at0 r.1, r.2)

/-- The function `printMenu`: the level character and the tokens left. -/
def printMenu (tokens : List String) : Run (Char × List String) :=
  (promptLoop validateLevel Event.levelMenu tokens "").bind
    fun r => .done [] (at0 r.1, r.2)

/-- The function `fetchValue`: the value character and the tokens left. -/
def fetchValue (tokens : List String) : Run (Char × List String) :=
  (promptLoop validateValue Event.enterValue tokens "").bind
    fun r => .done [] (at0 r.1, r.2)

/-- The function `fetchCoords`: the stack of coordinates, top first (so X
comes first, Y second), and the tokens left. -/
def fetchCoords (tokens : List String) : Run (List Char × List String) :=
  (promptLoop validateCoord Event.enterX tokens "").bind fun rx =>
    (promptLoop validateCoord Event.enterY rx.2 "").bind fun ry =>
      .done [] ([at0 rx.1, at0 ry.1], ry.2)

/-! ## The puzzle source -/

/-- The local `easy` of `getURL`. -/
def easy : String := "http://m.uploadedit.com/bbtc/1528267058303.txt"
/-- The local `easySol` of `getURL`. -/
def easySol : String := "http://m.uploadedit.com/bbtc/1528253085392.txt"
/-- The local `inter` of `getURL`. -/
def inter : String := "http://m.uploadedit.com/bbtc/1528267078101.txt"
/-- The local `interSol` of `getURL`. -/
def interSol : String := "http://m.uploadedit.com/bbtc/1528267101186.txt"
/-- The local `diff` of `getURL`. -/
def diff : String := "http://m.uploadedit.com/bbtc/1528267137564.txt"
/-- The local `diffSol` of `getURL`. -/
def diffSol : String := "http://m.uploadedit.com/bbtc/1528267148727.txt"
/-- The local `expert` of `getURL`. -/
def expert : String := "http://m.uploadedit.com/bbtc/1528267163452.txt"
/-- The local `expertSol` of `getURL`. -/
def expertSol : String := "http://m.uploadedit.com/bbtc/1528267187305.txt"

/-- The function `getURL`.  The `default` case calls `printErrorAndExit(ERROR)`,
which does not return. -/
def getURL (difficulty : Char) (solution : Bool) : Run String :=
  if difficulty = 'e' then
    if solution then .done [] easy else .done [] easySol
  else if difficulty = 'i' then
    if solution then .done [] inter else .done [] interSol
  else if difficulty = 'd' then
    if solution then .done [] diff else .done [] diffSol
  else if difficulty = 'r' then
    if solution then .done [] expert else .done [] expertSol
  else printErrorAndExit

/-- The network as `getPuzzle` sees it. -/
structure Net where
  /-- Whether `curl_easy_init()` returns a handle. -/
  handle : Bool
  /-- The characters (bytes) that `curl_easy_perform` has appended to `result`
  when it returns, for the URL given. -/
  perform : String → List Char

/-! ## The puzzle parser -/

/-- The call `s.substr(pos, len)` of `std::string`: it throws
`std::out_of_range` when `pos > s.size()`, and otherwise returns
the characters from `pos` on, at most `len` of them. -/
def substr (s : List Char) (pos len : Nat) : Except Halt (List Char) :=
  if pos > s.length then .error (Halt.outOfRange pos s.length) else .ok ((s.drop pos).take len)

/-- The static vector `puzzle` while the parse loop runs, with the index pairs
`(row, i)` of the stores executed so far, oldest first. -/
structure ParseState where
  puzzle : Grid
  trace : List (Nat × Nat)
  deriving DecidableEq, Repr

/-- How a piece of the parse loop ends: with the state it leaves, or with the
reason why it went no further and the state reached at that point. -/
abbrev ParseResult := Except (Halt × ParseState) ParseState

/-- The assignment `puzzle[row][i] = c`.  With `row` a row of the vector the
cell is replaced if the row has a cell `i`, and the grid is left as it is if
`i` lies past the end of the row; with `row` not a row of the vector the
program goes no further.  The store is recorded in the trace in every case. -/
def store (st : ParseState) (row i : Nat) (c : Char) : ParseResult :=
  match st.puzzle[row]? with
  | some cells =>
    .ok { puzzle := if i < cells.length then st.puzzle.set row (cells.set i c) else st.puzzle
          trace := st.trace ++ [(row, i)] }
  | none =>
    .error (Halt.outsideVector row i, { puzzle := st.puzzle, trace := st.trace ++ [(row, i)] })

/-- The loop `for (int i = 0; i < rowData.size(); ++i)` of `getPuzzle`, entered
with the characters of `rowData` from index `i` on. -/
def fillRow (row : Nat) : List Char → Nat → ParseState → ParseResult
  | [], _, st => .ok st
  | c :: rest, i, st =>
    match store st row i (if c = 'x' then ' ' else c) with
    | .ok st1 => fillRow row rest (i + 1) st1
    | .error e => .error e

/-- The body of the `do ... while` loop of `getPuzzle` up to the increments:
`rowData` is taken from `result` and stored into row `row`. -/
def parseRow (start end_ row : Nat) (result : List Char) (st : ParseState) : ParseResult :=
  match substr result start end_ with
  | .error h => .error (h, st)
  | .ok rowData => fillRow row rowData 0 st

/-- The `do ... while (start < 100)` loop of `getPuzzle`, entered with the
given values of `start`, `end` and `row`; the first argument bounds the number
of iterations. -/
def parseFrom : Nat → Nat → Nat → Nat → List Char → ParseState → ParseResult
  | 0, _, _, _, _, st => .error (Halt.fuel, st)
  | fuel + 1, start, end_, row, result, st =>
    match parseRow start end_ row result st with
    | .error e => .error e
    | .ok st1 =>
      if start + 10 < 100 then parseFrom fuel (start + 10) (end_ + 10) (row + 1) result st1
      else .ok st1

/-- The first `n` iterations of the `do ... while` loop of `getPuzzle`, entered
with the given values of `start`, `end` and `row`. -/
def parseRows : Nat → Nat → Nat → Nat → List Char → ParseState → ParseResult
  | 0, _, _, _, _, st => .ok st
  | n + 1, start, end_, row, result, st =>
    match parseRow start end_ row result st with
    | .error e => .error e
    | .ok st1 => parseRows n (start + 10) (end_ + 10) (row + 1) result st1

/-- The parse loop of `getPuzzle` (from `int start = 0;` to the end of the
`do ... while`), run on the fetched text `result` with `puzzle` holding the
content the static vector has on entry. -/
def parse (puzzle : Grid) (result : List Char) : ParseResult :=
  parseFrom 10 0 10 0 result { puzzle := puzzle, trace := [] }

/-- The function `getPuzzle`, with the content of its static vector on entry
as an argument; the grid it returns is also the new content of that vector.
The pause before the transfer and the copy of the URL into a local array are
left out. -/
def getPuzzle (net : Net) (puzzle : Grid) (difficulty : Char) (solution : Bool) : Run Grid :=
  (getURL difficulty solution).bind fun url =>
    if net.handle then
      Run.emit ((if solution then [] else [Event.downloading]) ++ [Event.fetch url])
        (match parse puzzle (net.perform url) with
         | .ok st => .done [] st.puzzle
         | .error e => .halt [] e.1)
    else .halt [Event.noConnection] (Halt.exit 1)

/-! ## The grid table -/

/-- The cell in row `r` and column `c` of a grid, if there is one. -/
def cellAt (g : Grid) (r c : Nat) : Option Char :=
  match g[r]? with
  | some cells => cells[c]?
  | none => none

/-- Modelled from the spec: `GridTable::getTotalEmpty` (declared in
`GridTable.h`, which is missing); it scans all cells and counts those that hold
the empty marker `' '`. -/
def GridTable.getTotalEmpty (t : Grid) : Nat :=
  (t.map fun cells => cells.count ' ').sum

/-- Modelled from the spec: `GridTable::match` (declared in `GridTable.h`,
which is missing); element-wise equality over all 81 cells, true only if
every cell is identical. -/
def GridTable.matchGrid (t other : Grid) : Bool :=
  (List.range ROWS).all fun r => (List.range COLS).all fun c => cellAt t r c == cellAt other r c

/-! ## Checking and the game loop -/

/-- The function `checkSolution`.  It returns the table (passed by reference)
and the content of the static vector of `getPuzzle`.  The local `populated`
is never read and the pause before the transfer is left out. -/
def checkSolution (net : Net) (puzzle : Grid) (difficulty : Char) (t : Grid) :
    Run (Grid × Grid) :=
  let empty := GridTable.getTotalEmpty t
  if empty ≠ 0 then
    -- Puzzle not completed.
    .done [Event.checking, Event.incomplete] (t, puzzle)
  else
    -- Puzzle complete.
    Run.emit [Event.checking]
      ((getPuzzle net puzzle difficulty true).bind fun solution =>
        if GridTable.matchGrid t solution = false then .done [Event.incorrect] (t, solution)
        else .halt [Event.congratulations] (Halt.exit 1))

/-- The game loop of `main` (`while (input != 'q')`), entered with the tokens
still to be read, the table and the static vector of `getPuzzle`.  `insert` is
`GridTable::insert`; the first argument bounds the number of iterations.  The
loop has no normal exit: the command `q` ends the process. -/
def gameLoop (insert : Grid → Char → List Char → Grid) (net : Net) (difficulty : Char) :
    Nat → List String → Grid → Grid → Run Unit
  | 0, _, _, _ => .halt [] Halt.fuel
  | fuel + 1, tokens, table, puzzle =>
    (printOptions tokens).bind fun r =>
      let input := r.1
      if input = 'q' then printMsgAndExit
      else if input = 'e' then
        (fetchValue r.2).bind fun v =>
          (fetchCoords v.2).bind fun xy =>
            Run.emit [Event.table (insert table v.1 xy.1)]
              (gameLoop insert net difficulty fuel xy.2 (insert table v.1 xy.1) puzzle)
      else if input = 'p' then
        Run.emit [Event.table table] (gameLoop insert net difficulty fuel r.2 table puzzle)
      else if input = 'c' then
        (checkSolution net puzzle difficulty table).bind fun tp =>
          gameLoop insert net difficulty fuel r.2 tp.1 tp.2
      else printErrorAndExit

/-- The content of the static vector `puzzle` before the first call of
`getPuzzle`: `ROWS` rows of `COLS` value-initialised characters. -/
def freshPuzzle : Grid := List.replicate ROWS (List.replicate COLS (Char.ofNat 0))

/-- A grid has the dimensions of the static vector `puzzle`: `ROWS` rows of
`COLS` cells each. -/
def IsGrid (g : Grid) : Prop := g.length = ROWS ∧ ∀ cells ∈ g, cells.length = COLS

/-- A blob of exactly 100 characters: ten lines of nine cells and a line feed,
the ninth line all `x`. -/
def blob100 : List Char :=
  "123456789\n123456789\n123456789\n123456789\n123456789\n123456789\n123456789\n123456789\nxxxxxxxxx\n123456789\n".data

/-- What the parse loop stores for a character of the blob. -/
def cellOf (c : Char) : Char := if c = 'x' then ' ' else c

/-- The grid that the scenario blob parses to. -/
def scenarioGrid : Grid :=
  [['1', '2', '3', '4', '5', '6', '7', '8', '9'],
   ['2', '3', '4', '5', '6', '7', '8', '9', '1'],
   ['3', '4', '5', '6', '7', '8', '9', '1', '2'],
   ['4', '5', '6', '7', '8', '9', '1', '2', '3'],
   ['5', '6', '7', '8', '9', '1', '2', '3', '4'],
   ['6', '7', '8', '9', '1', '2', '3', '4', '5'],
   ['7', '8', '9', '1', '2', '3', '4', '5', '6'],
   ['8', '9', '1', '2', '3', '4', '5', '6', '7'],
   ['9', ' ', ' ', ' ', ' ', ' ', ' ', ' ', ' ']]

instance (g : Grid) : Decidable (IsGrid g) := by
  unfold IsGrid
  infer_instance

/-- A solution file of nine lines, each of nine digits and a line feed. -/
def solvedBlob : List Char :=
  "534678912\n672195348\n198342567\n859761423\n426853791\n713924856\n961537284\n287419635\n345286179\n".data

/-- The grid that `solvedBlob` parses to. -/
def solvedGrid : Grid :=
  [['5', '3', '4', '6', '7', '8', '9', '1', '2'],
   ['6', '7', '2', '1', '9', '5', '3', '4', '8'],
   ['1', '9', '8', '3', '4', '2', '5', '6', '7'],
   ['8', '5', '9', '7', '6', '1', '4', '2', '3'],
   ['4', '2', '6', '8', '5', '3', '7', '9', '1'],
   ['7', '1', '3', '9', '2', '4', '8', '5', '6'],
   ['9', '6', '1', '5', '3', '7', '2', '8', '4'],
   ['2', '8', '7', '4', '1', '9', '6', '3', '5'],
   ['3', '4', '5', '2', '8', '6', '1', '7', '9']]

/-- The grid `solvedGrid` with a wrong digit in its first cell. -/
def almostSolvedGrid : Grid :=
  [['1', '3', '4', '6', '7', '8', '9', '1', '2'],
   ['6', '7', '2', '1', '9', '5', '3', '4', '8'],
   ['1', '9', '8', '3', '4', '2', '5', '6', '7'],
   ['8', '5', '9', '7', '6', '1', '4', '2', '3'],
   ['4', '2', '6', '8', '5', '3', '7', '9', '1'],
   ['7', '1', '3', '9', '2', '4', '8', '5', '6'],
   ['9', '6', '1', '5', '3', '7', '2', '8', '4'],
   ['2', '8', '7', '4', '1', '9', '6', '3', '5'],
   ['3', '4', '5', '2', '8', '6', '1', '7', '9']]

/-- What `printOptions` hands to the game loop: it returns one of the commands
`p`, `e`, `q`, `c`, or it never returns, the input being exhausted. -/
def validCommand : Run (Char × List String) → Prop
  | .done _ r => r.1 = 'p' ∨ r.1 = 'e' ∨ r.1 = 'q' ∨ r.1 = 'c'
  | .halt _ h => h = Halt.stalled

/-- A network on which every transfer succeeds and delivers `solvedBlob`. -/
def solvedNet : Net := { handle := true, perform := fun _ => solvedBlob }

/-! ## Validators: properties -/

/-- C3: `validateCoord(s)` returns true exactly when `s` has length 1 and its
single character lies in `'0'..'8'` (codes 48 to 56); every other string is
rejected. -/
theorem validateCoord_iff (s : String) :
    (validateCoord s).1 = true ↔
      s.length = 1 ∧ ∃ c : Char, s.data = [c] ∧ 48 ≤ c.toNat ∧ c.toNat ≤ 56 := by
  obtain ⟨l⟩ := s
  cases l with
  | nil => simp [validateCoord, String.length]
  | cons c rest =>
    cases rest with
    | nil =>
      simp only [validateCoord, String.length, List.length_singleton, lt_irrefl, false_or]
      by_cases h : c.toNat < 48 ∨ c.toNat > 56
      · rw [if_pos h]; simp; omega
      · rw [if_neg h]; simp; omega
    | cons d rest => simp [validateCoord, String.length]

/-- C4: `validateValue(s)` returns true exactly when `s` has length 1 and its
single character lies in `'1'..'9'` (codes 49 to 57); `"0"`, the empty string
and every string of two or more characters are rejected. -/
theorem validateValue_iff (s : String) :
    ((validateValue s).1 = true ↔
      s.length = 1 ∧ ∃ c : Char, s.data = [c] ∧ 49 ≤ c.toNat ∧ c.toNat ≤ 57) ∧
    (validateValue "0").1 = false ∧ (validateValue "").1 = false ∧
    ∀ (c d : Char) (rest : List Char), (validateValue (String.mk (c :: d :: rest))).1 = false := by
  obtain ⟨l⟩ := s
  refine ⟨?_, by decide, by decide, ?_⟩
  · cases l with
    | nil => simp [validateValue, String.length]
    | cons c rest =>
      cases rest with
      | nil =>
        simp only [validateValue, String.length, List.length_singleton, lt_irrefl, false_or]
        by_cases h : c.toNat < 49 ∨ c.toNat > 57
        · rw [if_pos h]; simp; omega
        · rw [if_neg h]; simp; omega
      | cons d rest => simp [validateValue, String.length]
  · intro c d rest
    simp [validateValue]

/-- C5, as the claim states it, fails: `"pp"` is accepted by `validateOption`
and `"easy"` by `validateLevel`, although neither has length 1. -/
theorem menu_validators_accept_long_tokens :
    (validateOption "pp").1 = true ∧ "pp".length = 2 ∧
    (validateLevel "easy").1 = true ∧ "easy".length = 4 := by
  decide

/-- C5, amended: the two menu validators look at the first character only.
`validateOption(s)` is true exactly when `s` is non-empty and starts with one
of `p`, `e`, `c`, `q`; `validateLevel(s)` is true exactly when `s` is non-empty
and starts with one of `e`, `i`, `d`, `r`, `q`.  The length is not checked. -/
theorem menu_validators_first_char (s : String) :
    ((validateOption s).1 = true ↔
      ∃ c rest, s.data = c :: rest ∧ (c = 'p' ∨ c = 'e' ∨ c = 'c' ∨ c = 'q')) ∧
    ((validateLevel s).1 = true ↔
      ∃ c rest, s.data = c :: rest ∧ (c = 'e' ∨ c = 'i' ∨ c = 'd' ∨ c = 'r' ∨ c = 'q')) := by
  obtain ⟨l⟩ := s
  cases l with
  | nil => simp [validateOption, validateLevel]
  | cons c rest =>
    constructor
    · simp only [validateOption]
      by_cases h : c = 'p' ∨ c = 'e' ∨ c = 'q' ∨ c = 'c'
      · rw [if_pos h]; simp; tauto
      · rw [if_neg h]; simp; tauto
    · simp only [validateLevel]
      by_cases h : c = 'e' ∨ c = 'i' ∨ c = 'd' ∨ c = 'r' ∨ c = 'q'
      · rw [if_pos h]; simp; tauto
      · rw [if_neg h]; simp; tauto

/-! ## The puzzle source: properties -/

/-- C7 fails on the code: for every difficulty `getURL(d, false)` returns the
URL named as the solution and `getURL(d, true)` the URL named as the puzzle,
and the two differ (the 8 URLs are pairwise distinct); the initial load
`getPuzzle('e', false)` transfers `easySol`. -/
theorem getURL_swapped :
    getURL 'e' false = .done [] easySol ∧ getURL 'e' true = .done [] easy ∧
    getURL 'i' false = .done [] interSol ∧ getURL 'i' true = .done [] inter ∧
    getURL 'd' false = .done [] diffSol ∧ getURL 'd' true = .done [] diff ∧
    getURL 'r' false = .done [] expertSol ∧ getURL 'r' true = .done [] expert ∧
    [easy, easySol, inter, interSol, diff, diffSol, expert, expertSol].Nodup ∧
    (getPuzzle { handle := true, perform := fun _ => blob100 } freshPuzzle 'e' false).output
      = [Event.downloading, Event.fetch easySol] := by
  refine ⟨rfl, rfl, rfl, rfl, rfl, rfl, rfl, rfl, by decide, ?_⟩
  decide

/-! ## The game loop: properties -/

theorem Run.emit_emit {α : Type} (a b : List Event) (r : Run α) :
    Run.emit a (Run.emit b r) = Run.emit (a ++ b) r := by
  cases r <;> simp [Run.emit]

theorem Run.emit_bind {α β : Type} (pre : List Event) (r : Run α) (f : α → Run β) :
    (Run.emit pre r).bind f = Run.emit pre (r.bind f) := by
  cases r with
  | done out a =>
    show Run.emit (pre ++ out) (f a) = Run.emit pre (Run.emit out (f a))
    rw [Run.emit_emit]
  | halt out h => rfl

/-- A token that the validator rejects is dropped by the prompt loop: after the
validator's message the loop is where it was when it started on the tokens
behind it. -/
theorem promptLoop_rejected (validate : String → Bool × List Event) (prompt : Event)
    (hempty : validate "" = (false, [])) (tok : String) (rest : List String)
    (htok : (validate tok).1 = false) :
    promptLoop validate prompt (tok :: rest) "" =
      Run.emit ([prompt] ++ (validate tok).2) (promptLoop validate prompt rest "") := by
  cases rest with
  | nil => simp [promptLoop, hempty, htok, Run.emit]
  | cons t ts => simp [promptLoop, hempty, htok, Run.emit_emit]

/-- The prompt loop returns only strings that the validator accepts. -/
theorem promptLoop_accepts (validate : String → Bool × List Event) (prompt : Event)
    (tokens : List String) (s : String) (out : List Event) (r : String × List String)
    (h : promptLoop validate prompt tokens s = .done out r) : (validate r.1).1 = true := by
  induction tokens generalizing s out with
  | nil =>
    unfold promptLoop at h
    split at h
    · next hv => cases h; exact hv
    · cases h
  | cons t ts ih =>
    unfold promptLoop at h
    split at h
    · next hv => cases h; exact hv
    · cases hrec : promptLoop validate prompt ts t with
      | done o a => rw [hrec] at h; simp only [Run.emit] at h; cases h; exact ih t o hrec
      | halt o a => rw [hrec] at h; simp [Run.emit] at h

/-- The prompt loop fails to return only by going round for ever on an
exhausted input. -/
theorem promptLoop_halts (validate : String → Bool × List Event) (prompt : Event)
    (tokens : List String) (s : String) (out : List Event) (h : Halt)
    (hrun : promptLoop validate prompt tokens s = .halt out h) : h = Halt.stalled := by
  induction tokens generalizing s out with
  | nil =>
    unfold promptLoop at hrun
    split at hrun
    · cases hrun
    · cases hrun; rfl
  | cons t ts ih =>
    unfold promptLoop at hrun
    split at hrun
    · cases hrun
    · cases hrec : promptLoop validate prompt ts t with
      | done o a => rw [hrec] at hrun; cases hrun
      | halt o e =>
        rw [hrec] at hrun
        simp only [Run.emit, Run.halt.injEq] at hrun
        obtain ⟨-, he⟩ := hrun
        subst he
        exact ih t o hrec

/-- The outcome of `printOptions`, whatever the input. -/
theorem printOptions_outcome (tokens : List String) : validCommand (printOptions tokens) := by
  unfold printOptions
  cases hrec : promptLoop validateOption Event.optionsMenu tokens "" with
  | halt o a => exact promptLoop_halts _ _ _ _ _ _ hrec
  | done o a =>
    have hv := promptLoop_accepts _ _ _ _ _ _ hrec
    obtain ⟨⟨l⟩, ts⟩ := a
    cases l with
    | nil => simp [validateOption] at hv
    | cons c cs =>
      simp only [validateOption] at hv
      by_cases hc : c = 'p' ∨ c = 'e' ∨ c = 'q' ∨ c = 'c'
      · simpa [Run.bind, Run.emit, validCommand, at0] using hc
      · rw [if_neg hc] at hv; simp at hv

/-- C6, as the claim states it, fails: on the input `z q` the game loop answers
`z` with the invalid-input message and the menu again, and ends on `q` with the
goodbye message and `exit(1)`; the message `ERROR` is never printed. -/
theorem gameLoop_z_then_q :
    gameLoop (fun t _ _ => t) { handle := true, perform := fun _ => blob100 } 'e' 2 ["z", "q"]
        freshPuzzle freshPuzzle
      = .halt [Event.optionsMenu, Event.invalid, Event.optionsMenu, Event.goodbye] (Halt.exit 1) := by
  decide

/-- C6, amended: in the game loop a token whose first character is none of
`p`, `e`, `c`, `q` is answered by the invalid-input message and a new prompt:
the session goes on from the tokens behind it with the table unchanged.  What
`printOptions` then hands to the loop is one of `p`, `e`, `q`, `c` (or it never
returns, the input being exhausted), so the token does not take the loop to
its branch that prints `ERROR` and exits. -/
theorem gameLoop_reprompts (insert : Grid → Char → List Char → Grid) (net : Net)
    (difficulty : Char) (fuel : Nat) (tok : String) (rest : List String) (table puzzle : Grid)
    (c : Char) (cs : List Char) (htok : tok.data = c :: cs)
    (hc : c ≠ 'p' ∧ c ≠ 'e' ∧ c ≠ 'c' ∧ c ≠ 'q') :
    gameLoop insert net difficulty (fuel + 1) (tok :: rest) table puzzle =
        Run.emit [Event.optionsMenu, Event.invalid]
          (gameLoop insert net difficulty (fuel + 1) rest table puzzle) ∧
    printOptions (tok :: rest) =
        Run.emit [Event.optionsMenu, Event.invalid] (printOptions rest) ∧
    validCommand (printOptions (tok :: rest)) := by
  have hv : validateOption tok = (false, [Event.invalid]) := by
    simp only [validateOption, htok]
    rw [if_neg]
    tauto
  have hp : printOptions (tok :: rest) =
      Run.emit [Event.optionsMenu, Event.invalid] (printOptions rest) := by
    unfold printOptions
    rw [promptLoop_rejected _ _ (by rfl) tok rest (by rw [hv]), hv, Run.emit_bind]
    rfl
  refine ⟨?_, hp, printOptions_outcome _⟩
  simp only [gameLoop]
  rw [hp, Run.emit_bind]

/-- Witness for `gameLoop_reprompts`, at the token `z` followed by `q`. -/
theorem gameLoop_reprompts_witness :
    gameLoop (fun t _ _ => t) { handle := true, perform := fun _ => blob100 } 'e' (1 + 1)
        ("z" :: ["q"]) freshPuzzle freshPuzzle =
        Run.emit [Event.optionsMenu, Event.invalid]
          (gameLoop (fun t _ _ => t) { handle := true, perform := fun _ => blob100 } 'e' (1 + 1)
            ["q"] freshPuzzle freshPuzzle) ∧
    printOptions ("z" :: ["q"]) =
        Run.emit [Event.optionsMenu, Event.invalid] (printOptions ["q"]) ∧
    validCommand (printOptions ("z" :: ["q"])) :=
  gameLoop_reprompts _ _ 'e' 1 "z" ["q"] freshPuzzle freshPuzzle 'z' [] rfl (by decide)

/-! ## The puzzle parser: properties -/

theorem isSome_cellAt_of_isGrid (g : Grid) (h : IsGrid g) (r k : Nat) (hr : r < 9) (hk : k < 9) :
    (cellAt g r k).isSome = true := by
  have hlen : r < g.length := by rw [h.1]; exact hr
  have hk' : k < (g[r]).length := by rw [h.2 _ (List.getElem_mem hlen)]; exact hk
  simp only [cellAt, List.getElem?_eq_getElem hlen, List.getElem?_eq_getElem hk']
  rfl

/-- Two grids of the dimensions of the table that agree on all 81 cells are equal. -/
theorem grid_ext (g g' : Grid) (h : IsGrid g) (h' : IsGrid g')
    (hcells : ∀ r < 9, ∀ k < 9, cellAt g r k = cellAt g' r k) : g = g' := by
  apply List.ext_getElem?
  intro r
  by_cases hr : r < 9
  · have h1 : r < g.length := by rw [h.1]; exact hr
    have h2 : r < g'.length := by rw [h'.1]; exact hr
    rw [List.getElem?_eq_getElem h1, List.getElem?_eq_getElem h2]
    congr 1
    apply List.ext_getElem?
    intro k
    by_cases hk : k < 9
    · have := hcells r hr k hk
      simpa only [cellAt, List.getElem?_eq_getElem h1, List.getElem?_eq_getElem h2] using this
    · rw [List.getElem?_eq_none, List.getElem?_eq_none]
      · rw [h'.2 _ (List.getElem_mem h2)]; simp only [COLS]; omega
      · rw [h.2 _ (List.getElem_mem h1)]; simp only [COLS]; omega
  · rw [List.getElem?_eq_none, List.getElem?_eq_none]
    · rw [h'.1]; simp only [ROWS]; omega
    · rw [h.1]; simp only [ROWS]; omega

theorem freshPuzzle_isGrid : IsGrid freshPuzzle := by
  refine ⟨rfl, ?_⟩
  intro cells h
  simp only [freshPuzzle, List.mem_replicate] at h
  rw [h.2, List.length_replicate]

/-- The cells of a grid after the cell `i` of its row `row` has been replaced,
if the row has such a cell. -/
theorem cellAt_set (g : Grid) (row i : Nat) (c : Char) (cells : List Char)
    (hrow : g[row]? = some cells) (r k : Nat) :
    cellAt (if i < cells.length then g.set row (cells.set i c) else g) r k =
      if r = row ∧ k = i ∧ (cellAt g r k).isSome then some c else cellAt g r k := by
  have hlt : row < g.length := by
    by_contra hn
    rw [List.getElem?_eq_none (by omega)] at hrow
    cases hrow
  unfold cellAt
  by_cases hi : i < cells.length
  · simp only [hi, if_true, List.getElem?_set]
    by_cases hr : r = row
    · subst hr
      simp only [hlt, if_true, hrow, List.getElem?_set, true_and]
      by_cases hk : k = i
      · subst hk; simp [hi]
      · have : ¬ i = k := fun h => hk h.symm
        simp [hk, this]
    · have : ¬ row = r := fun h => hr h.symm
      simp [hr, this]
  · simp only [hi, if_false]
    by_cases hr : r = row
    · subst hr
      simp only [hrow, true_and]
      by_cases hk : k = i
      · subst hk
        rw [List.getElem?_eq_none (by omega)]; simp
      · simp [hk]
    · simp [hr]

theorem isGrid_set (g : Grid) (row i : Nat) (c : Char) (cells : List Char)
    (hrow : g[row]? = some cells) (h : IsGrid g) :
    IsGrid (if i < cells.length then g.set row (cells.set i c) else g) := by
  split
  · refine ⟨by rw [List.length_set]; exact h.1, ?_⟩
    intro cells' hmem
    rcases List.mem_or_eq_of_mem_set hmem with h' | h'
    · exact h.2 cells' h'
    · rw [h', List.length_set]
      exact h.2 cells (List.getElem?_mem hrow)
  · exact h

/-- A store into a row of the vector returns; the lemma gives the state it
leaves. -/
theorem store_ok (st : ParseState) (row i : Nat) (c : Char) (h : row < st.puzzle.length) :
    ∃ st', store st row i c = .ok st' ∧ st'.puzzle.length = st.puzzle.length ∧
      (IsGrid st.puzzle → IsGrid st'.puzzle) ∧
      (∀ r k, cellAt st'.puzzle r k =
        if r = row ∧ k = i ∧ (cellAt st.puzzle r k).isSome then some c
        else cellAt st.puzzle r k) ∧
      st'.trace = st.trace ++ [(row, i)] := by
  have hrow : st.puzzle[row]? = some st.puzzle[row] := List.getElem?_eq_getElem h
  refine ⟨_, by unfold store; rw [hrow], ?_, ?_, ?_, rfl⟩
  · show (if i < (st.puzzle[row]).length then _ else _ : Grid).length = _
    split
    · rw [List.length_set]
    · rfl
  · exact isGrid_set st.puzzle row i c _ hrow
  · exact cellAt_set st.puzzle row i c _ hrow

/-- A store into a row that the vector does not have goes no further. -/
theorem store_outside (st : ParseState) (row i : Nat) (c : Char) (h : st.puzzle.length ≤ row) :
    store st row i c =
      .error (Halt.outsideVector row i,
        { puzzle := st.puzzle, trace := st.trace ++ [(row, i)] }) := by
  unfold store
  rw [List.getElem?_eq_none h]

/-- Filling a row of the vector returns; the lemma gives the state it leaves. -/
theorem fillRow_ok (row : Nat) (data : List Char) (i : Nat) (st : ParseState)
    (h : row < st.puzzle.length) :
    ∃ st', fillRow row data i st = .ok st' ∧ st'.puzzle.length = st.puzzle.length ∧
      (IsGrid st.puzzle → IsGrid st'.puzzle) ∧
      (∀ r k, cellAt st'.puzzle r k =
        if r = row ∧ i ≤ k ∧ k < i + data.length ∧ (cellAt st.puzzle r k).isSome
        then (data[k - i]?).map cellOf else cellAt st.puzzle r k) ∧
      (∀ p : Nat × Nat, p ∈ st'.trace ↔
        p ∈ st.trace ∨ (p.1 = row ∧ i ≤ p.2 ∧ p.2 < i + data.length)) := by
  induction data generalizing i st with
  | nil =>
    refine ⟨st, rfl, rfl, id, ?_, ?_⟩
    · intro r k
      rw [if_neg]
      rintro ⟨_, h1, h2, _⟩
      simp only [List.length_nil] at h2
      omega
    · intro p
      simp only [List.length_nil]
      constructor
      · exact Or.inl
      · rintro (hp | ⟨_, h1, h2⟩)
        · exact hp
        · omega
  | cons c rest ih =>
    obtain ⟨st1, hs, hl1, hg1, hc1, ht1⟩ := store_ok st row i (if c = 'x' then ' ' else c) h
    obtain ⟨st2, hf, hl2, hg2, hc2, ht2⟩ := ih (i + 1) st1 (by rw [hl1]; exact h)
    refine ⟨st2, ?_, by rw [hl2, hl1], fun hg => hg2 (hg1 hg), ?_, ?_⟩
    · simp only [fillRow, hs]
      exact hf
    · intro r k
      rw [hc2 r k, hc1 r k]
      simp only [List.length_cons]
      by_cases hr : r = row
      · subst hr
        by_cases hk : k = i
        · subst hk
          cases hs : cellAt st.puzzle r k with
          | none => simp
          | some v => simp [cellOf]
        · by_cases hlt : i + 1 ≤ k ∧ k < i + 1 + rest.length
          · have h1 : i ≤ k ∧ k < i + (rest.length + 1) := by omega
            have h2 : k - i = (k - (i + 1)) + 1 := by omega
            simp only [hk, hlt, h1, false_and, and_false, if_false, true_and, and_self]
            rw [h2, List.getElem?_cons_succ]
          · have h1 : ¬ (i ≤ k ∧ k < i + (rest.length + 1)) := by omega
            simp only [true_and, hk, false_and, if_false]
            rw [if_neg (fun h => hlt ⟨h.1, h.2.1⟩), if_neg (fun h => h1 ⟨h.1, h.2.1⟩)]
      · simp [hr]
    · intro p
      rw [ht2 p, ht1]
      simp only [List.mem_append, List.mem_singleton, List.length_cons]
      constructor
      · rintro ((hp | hp) | ⟨h1, h2, h3⟩)
        · exact Or.inl hp
        · right; rw [hp]; simp only [true_and]; omega
        · right; exact ⟨h1, by omega, by omega⟩
      · rintro (hp | ⟨h1, h2, h3⟩)
        · exact Or.inl (Or.inl hp)
        · by_cases hi : p.2 = i
          · left; right
            exact Prod.ext h1 hi
          · right; exact ⟨h1, by omega, by omega⟩

/-- One iteration of the parse loop on a row of the vector, the position
`start` lying inside the blob: it returns, row `row` holds the characters read
at `start` as far as they fall on cells of the grid, and the stores executed
are those at `(row, i)` for the characters of `rowData`. -/
theorem parseRow_ok (result : List Char) (start e row : Nat) (st : ParseState)
    (h : row < st.puzzle.length) (hstart : start ≤ result.length) :
    ∃ st', parseRow start e row result st = .ok st' ∧ st'.puzzle.length = st.puzzle.length ∧
      (IsGrid st.puzzle → IsGrid st'.puzzle) ∧
      (∀ r k, cellAt st'.puzzle r k =
        if r = row ∧ k < e ∧ start + k < result.length ∧ (cellAt st.puzzle r k).isSome
        then (result[start + k]?).map cellOf else cellAt st.puzzle r k) ∧
      (∀ r k, (cellAt st'.puzzle r k).isSome = (cellAt st.puzzle r k).isSome) ∧
      (∀ p : Nat × Nat, p ∈ st'.trace ↔
        p ∈ st.trace ∨ (p.1 = row ∧ p.2 < e ∧ start + p.2 < result.length)) := by
  obtain ⟨st', hf, hl, hg, hc, ht⟩ := fillRow_ok row ((result.drop start).take e) 0 st h
  have hcell : ∀ r k, cellAt st'.puzzle r k =
      if r = row ∧ k < e ∧ start + k < result.length ∧ (cellAt st.puzzle r k).isSome
      then (result[start + k]?).map cellOf else cellAt st.puzzle r k := by
    intro r k
    rw [hc r k]
    simp only [List.length_take, List.length_drop, Nat.zero_le, true_and, Nat.zero_add,
      Nat.sub_zero, List.getElem?_take, List.getElem?_drop]
    by_cases hcond : r = row ∧ k < e ∧ start + k < result.length ∧ (cellAt st.puzzle r k).isSome
    · have h' : r = row ∧ k < min e (result.length - start) ∧ (cellAt st.puzzle r k).isSome := by
        refine ⟨hcond.1, ?_, hcond.2.2.2⟩
        have := hcond.2.1; have := hcond.2.2.1
        omega
      rw [if_pos hcond, if_pos h', if_pos hcond.2.1]
    · have h' : ¬ (r = row ∧ k < min e (result.length - start) ∧
          (cellAt st.puzzle r k).isSome) := by
        rintro ⟨h1, h2, h3⟩
        apply hcond
        refine ⟨h1, ?_, ?_, h3⟩ <;> omega
      rw [if_neg hcond, if_neg h']
  refine ⟨st', ?_, hl, hg, hcell, ?_, ?_⟩
  · unfold parseRow substr
    rw [if_neg (by omega)]
    exact hf
  · intro r k
    rw [hcell r k]
    split
    · next hcond =>
      have hk : start + k < result.length := hcond.2.2.1
      rw [List.getElem?_eq_getElem hk, hcond.2.2.2]
      rfl
    · rfl
  · intro p
    rw [ht p]
    simp only [List.length_take, List.length_drop, Nat.zero_le, true_and, Nat.zero_add]
    constructor
    · rintro (hp | ⟨h1, h2⟩)
      · exact Or.inl hp
      · right; exact ⟨h1, by omega, by omega⟩
    · rintro (hp | ⟨h1, h2, h3⟩)
      · exact Or.inl hp
      · right; exact ⟨h1, by omega⟩

/-- The first `n` iterations of the parse loop, entered at row `row` of a
vector of nine rows, all on rows of the vector and all starting inside the
blob: they return, the rows `row` to `row + n - 1` hold the characters read at
ten times their row plus their column, and the stores executed are those at
`(r, i)` with `i` below both `10 * r + 10` and the number of characters left
from `10 * r`. -/
theorem parseRows_ok (result : List Char) :
    ∀ (n row : Nat) (st : ParseState), st.puzzle.length = 9 → row + n ≤ 9 →
      10 * (row + n) ≤ result.length + 10 →
      ∃ st', parseRows n (10 * row) (10 * row + 10) row result st = .ok st' ∧
        st'.puzzle.length = 9 ∧ (IsGrid st.puzzle → IsGrid st'.puzzle) ∧
        (∀ r k, cellAt st'.puzzle r k =
          if (row ≤ r ∧ r < row + n) ∧ k < 10 * r + 10 ∧ 10 * r + k < result.length ∧
              (cellAt st.puzzle r k).isSome
          then (result[10 * r + k]?).map cellOf else cellAt st.puzzle r k) ∧
        (∀ p : Nat × Nat, p ∈ st'.trace ↔
          p ∈ st.trace ∨
            ((row ≤ p.1 ∧ p.1 < row + n) ∧ p.2 < 10 * p.1 + 10 ∧
              10 * p.1 + p.2 < result.length)) := by
  intro n
  induction n with
  | zero =>
    intro row st hl _ _
    refine ⟨st, rfl, hl, id, ?_, ?_⟩
    · intro r k
      rw [if_neg]
      rintro ⟨⟨h1, h2⟩, _⟩
      omega
    · intro p
      constructor
      · exact Or.inl
      · rintro (hp | ⟨⟨h1, h2⟩, _⟩)
        · exact hp
        · omega
  | succ n ih =>
    intro row st hl hrow hlen
    obtain ⟨st1, hr1, hl1, hg1, hc1, hs1, ht1⟩ :=
      parseRow_ok result (10 * row) (10 * row + 10) row st (by omega) (by omega)
    obtain ⟨st2, hr2, hl2, hg2, hc2, ht2⟩ :=
      ih (row + 1) st1 (by rw [hl1]; exact hl) (by omega) (by omega)
    refine ⟨st2, ?_, hl2, fun hg => hg2 (hg1 hg), ?_, ?_⟩
    · simp only [parseRows, hr1]
      exact hr2
    · intro r k
      rw [hc2 r k, hs1 r k, hc1 r k]
      by_cases hr : r = row
      · subst hr
        simp
      · by_cases h1 : row + 1 ≤ r ∧ r < row + 1 + n
        · have h2 : row ≤ r ∧ r < row + (n + 1) := by omega
          simp only [h1, h2, hr, true_and, false_and, if_false]
        · have h2 : ¬ (row ≤ r ∧ r < row + (n + 1)) := by omega
          simp only [h1, h2, hr, false_and, if_false]
    · intro p
      rw [ht2 p, ht1 p]
      by_cases hr : p.1 = row
      · simp [hr]
      · by_cases h1 : row + 1 ≤ p.1 ∧ p.1 < row + 1 + n
        · have h2 : row ≤ p.1 ∧ p.1 < row + (n + 1) := by omega
          simp only [h1, h2, hr, true_and, false_and, or_false]
        · have h2 : ¬ (row ≤ p.1 ∧ p.1 < row + (n + 1)) := by omega
          simp only [h1, h2, hr, false_and, or_false]

/-- The iterations of the parse loop, taken one more: the last one runs on the
state that the others leave. -/
theorem parseRows_succ (result : List Char) :
    ∀ (n start e row : Nat) (st : ParseState),
      parseRows (n + 1) start e row result st =
        match parseRows n start e row result st with
        | .ok st' => parseRow (start + 10 * n) (e + 10 * n) (row + n) result st'
        | .error x => .error x := by
  intro n
  induction n with
  | zero =>
    intro start e row st
    simp only [parseRows, Nat.mul_zero, Nat.add_zero]
    cases parseRow start e row result st <;> rfl
  | succ n ih =>
    intro start e row st
    have hstep : ∀ (m s e' r : Nat) (st0 : ParseState),
        parseRows (m + 1) s e' r result st0 =
          match parseRow s e' r result st0 with
          | .error x => .error x
          | .ok st1 => parseRows m (s + 10) (e' + 10) (r + 1) result st1 :=
      fun _ _ _ _ _ => rfl
    rw [hstep (n + 1) start e row st, hstep n start e row st]
    cases parseRow start e row result st with
    | error x => rfl
    | ok st1 =>
      have h1 : start + 10 + 10 * n = start + 10 * (n + 1) := by omega
      have h2 : e + 10 + 10 * n = e + 10 * (n + 1) := by omega
      have h3 : row + 1 + n = row + (n + 1) := by omega
      simp only [ih, h1, h2, h3]

/-- The `do ... while (start < 100)` loop, entered at row `row` with
`start = 10 * row`, runs the iterations for the rows up to 9 and then exits. -/
theorem parseFrom_eq_parseRows (result : List Char) :
    ∀ (n row : Nat) (st : ParseState), row + n = 9 →
      parseFrom (n + 1) (10 * row) (10 * row + 10) row result st =
        parseRows (n + 1) (10 * row) (10 * row + 10) row result st := by
  intro n
  induction n with
  | zero =>
    intro row st hrow
    simp only [parseFrom, parseRows]
    cases parseRow (10 * row) (10 * row + 10) row result st with
    | error x => rfl
    | ok st1 =>
      simp only
      rw [if_neg (by omega)]
  | succ n ih =>
    intro row st hrow
    rw [parseFrom, parseRows]
    cases parseRow (10 * row) (10 * row + 10) row result st with
    | error x => rfl
    | ok st1 =>
      simp only
      rw [if_pos (by omega)]
      exact ih (row + 1) st1 (by omega)

theorem parse_eq_parseRows (puzzle : Grid) (result : List Char) :
    parse puzzle result = parseRows 10 0 10 0 result { puzzle := puzzle, trace := [] } :=
  parseFrom_eq_parseRows result 9 0 _ rfl

/-- The iterations for the rows 0 to 8 on a blob of at least 80 characters. -/
theorem parseRows_nine (puzzle : Grid) (hp : IsGrid puzzle) (result : List Char)
    (hlen : 80 ≤ result.length) :
    ∃ st, parseRows 9 0 10 0 result { puzzle := puzzle, trace := [] } = .ok st ∧
      IsGrid st.puzzle ∧
      (∀ r < 9, ∀ k < 9, 10 * r + k < result.length →
        cellAt st.puzzle r k = (result[10 * r + k]?).map cellOf) ∧
      (∀ p : Nat × Nat, p ∈ st.trace ↔
        p.1 < 9 ∧ p.2 < 10 * p.1 + 10 ∧ 10 * p.1 + p.2 < result.length) := by
  obtain ⟨st, hrun, -, hg, hc, ht⟩ :=
    parseRows_ok result 9 0 { puzzle := puzzle, trace := [] } hp.1 (by omega) (by omega)
  refine ⟨st, hrun, hg hp, ?_, ?_⟩
  · intro r hr k hk hidx
    rw [hc r k, if_pos]
    exact ⟨by omega, by omega, hidx, isSome_cellAt_of_isGrid _ hp r k hr hk⟩
  · intro p
    rw [ht p]
    simp only [List.not_mem_nil, false_or, Nat.zero_le, true_and, Nat.zero_add]

/-- On a blob of exactly 90 characters the parse loop returns: the tenth
`rowData` is empty, and the grid holds in every cell the character read at ten
times its row plus its column. -/
theorem parse_ninety (puzzle : Grid) (hp : IsGrid puzzle) (result : List Char)
    (hlen : result.length = 90) :
    ∃ st, parse puzzle result = .ok st ∧ IsGrid st.puzzle ∧
      ∀ r < 9, ∀ k < 9, cellAt st.puzzle r k = (result[10 * r + k]?).map cellOf := by
  obtain ⟨st, hrun, hg, hc, -⟩ := parseRows_nine puzzle hp result (by omega)
  refine ⟨st, ?_, hg, fun r hr k hk => hc r hr k hk (by omega)⟩
  rw [parse_eq_parseRows, parseRows_succ, hrun]
  simp only [parseRow, substr]
  rw [if_neg (by omega)]
  have hnil : List.take (10 + 10 * 9) (List.drop (0 + 10 * 9) result) = [] := by
    rw [List.drop_eq_nil_of_le (by omega)]
    rfl
  simp only [hnil]
  rfl

/-- On a blob of 91 characters or more the parse loop returns no grid: after
the iterations for the rows 0 to 8 the tenth one executes `puzzle[9][0]`, on a
vector of nine rows.  The lemma gives the cells of the vector and the stores
executed up to that point. -/
theorem parse_long (puzzle : Grid) (hp : IsGrid puzzle) (result : List Char)
    (hlen : 91 ≤ result.length) :
    ∃ st, parse puzzle result = .error (Halt.outsideVector 9 0, st) ∧ IsGrid st.puzzle ∧
      (∀ r < 9, ∀ k < 9, cellAt st.puzzle r k = (result[10 * r + k]?).map cellOf) ∧
      (∀ p : Nat × Nat, p ∈ st.trace ↔
        (p.1 < 9 ∧ p.2 < 10 * p.1 + 10 ∧ 10 * p.1 + p.2 < result.length) ∨ p = (9, 0)) := by
  obtain ⟨st9, hrun, hg, hc, ht⟩ := parseRows_nine puzzle hp result (by omega)
  refine ⟨{ puzzle := st9.puzzle, trace := st9.trace ++ [(9, 0)] }, ?_, hg,
    fun r hr k hk => hc r hr k hk (by omega), ?_⟩
  · rw [parse_eq_parseRows, parseRows_succ, hrun]
    simp only [parseRow, substr]
    rw [if_neg (by omega)]
    have hcons : ∃ c rest,
        List.take (10 + 10 * 9) (List.drop (0 + 10 * 9) result) = c :: rest := by
      cases hd : List.take (10 + 10 * 9) (List.drop (0 + 10 * 9) result) with
      | nil =>
        have := congrArg List.length hd
        simp only [List.length_take, List.length_drop, List.length_nil] at this
        omega
      | cons c rest => exact ⟨c, rest, rfl⟩
    obtain ⟨c, rest, hd⟩ := hcons
    simp only [hd, fillRow]
    rw [store_outside st9 9 0 _ (by rw [hg.1]; exact le_refl _)]
  · intro p
    simp only [List.mem_append, List.mem_singleton, ht p]

/-- On a blob of fewer than 90 characters the parse loop returns no grid: the
first `substr` whose position lies beyond the end of the blob throws. -/
theorem parseFrom_short (result : List Char) (hlen : result.length < 90) :
    ∀ (n row : Nat) (st : ParseState), st.puzzle.length = 9 → row + n = 9 →
      row ≤ result.length / 10 + 1 →
      ∃ st', parseFrom (n + 1) (10 * row) (10 * row + 10) row result st =
        .error (Halt.outOfRange (10 * (result.length / 10 + 1)) result.length, st') := by
  intro n
  induction n with
  | zero =>
    intro row st _ hrow hle
    have hthrow : 10 * row > result.length := by omega
    have hpos : 10 * row = 10 * (result.length / 10 + 1) := by omega
    refine ⟨st, ?_⟩
    simp only [parseFrom, parseRow, substr, if_pos hthrow]
    rw [hpos]
  | succ n ih =>
    intro row st hl hrow hle
    by_cases hthrow : 10 * row > result.length
    · have hpos : 10 * row = 10 * (result.length / 10 + 1) := by omega
      refine ⟨st, ?_⟩
      simp only [parseFrom, parseRow, substr, if_pos hthrow]
      rw [hpos]
    · obtain ⟨st1, hr1, hl1, -⟩ :=
        parseRow_ok result (10 * row) (10 * row + 10) row st (by omega) (by omega)
      obtain ⟨st', hnext⟩ := ih (row + 1) st1 (by rw [hl1]; exact hl) (by omega) (by omega)
      refine ⟨st', ?_⟩
      rw [← hnext]
      simp only [parseFrom, hr1]
      rw [if_pos (by omega)]
      rfl

theorem store_error (st : ParseState) (row i : Nat) (c : Char) (e : Halt × ParseState)
    (h : store st row i c = .error e) : e.1 = Halt.outsideVector row i := by
  unfold store at h
  split at h
  · cases h
  · cases h; rfl

theorem fillRow_error (row : Nat) (data : List Char) (i : Nat) (st : ParseState)
    (e : Halt × ParseState) (h : fillRow row data i st = .error e) : e.1 ≠ Halt.fuel := by
  induction data generalizing i st with
  | nil => cases h
  | cons c rest ih =>
    simp only [fillRow] at h
    cases hs : store st row i (if c = 'x' then ' ' else c) with
    | ok st1 => rw [hs] at h; exact ih _ _ h
    | error e1 =>
      rw [hs] at h
      cases h
      rw [store_error _ _ _ _ _ hs]
      intro hc
      cases hc

theorem parseRow_error (start e row : Nat) (result : List Char) (st : ParseState)
    (x : Halt × ParseState) (h : parseRow start e row result st = .error x) :
    x.1 ≠ Halt.fuel := by
  unfold parseRow substr at h
  split at h
  · next hs =>
    split at hs
    · cases hs; cases h
      intro hc
      cases hc
    · cases hs
  · exact fillRow_error _ _ _ _ _ h

theorem parseRows_error (result : List Char) :
    ∀ (n start e row : Nat) (st : ParseState) (x : Halt × ParseState),
      parseRows n start e row result st = .error x → x.1 ≠ Halt.fuel := by
  intro n
  induction n with
  | zero => intro start e row st x h; cases h
  | succ n ih =>
    intro start e row st x h
    simp only [parseRows] at h
    cases hr : parseRow start e row result st with
    | error y => rw [hr] at h; cases h; exact parseRow_error _ _ _ _ _ _ hr
    | ok st1 => rw [hr] at h; exact ih _ _ _ _ _ h

/-- The ten iterations allowed to the parse loop are enough: the loop never
stops for want of them. -/
theorem parse_budget (puzzle : Grid) (result : List Char) (x : Halt × ParseState)
    (h : parse puzzle result = .error x) : x.1 ≠ Halt.fuel := by
  rw [parse_eq_parseRows] at h
  exact parseRows_error _ _ _ _ _ _ _ h

/-- The stores that the parse loop executes on a blob of exactly 100
characters include `puzzle[0][9]`, `puzzle[1][19]` and `puzzle[9][0]`, the last
of which ends it. -/
theorem parse_stores_outside (puzzle : Grid) (hp : IsGrid puzzle) (result : List Char)
    (hlen : result.length = 100) :
    ∃ st, parse puzzle result = .error (Halt.outsideVector 9 0, st) ∧
      (0, 9) ∈ st.trace ∧ (1, 19) ∈ st.trace ∧ (9, 0) ∈ st.trace := by
  obtain ⟨st, hrun, -, -, htrace⟩ := parse_long puzzle hp result (by omega)
  refine ⟨st, hrun, ?_, ?_, ?_⟩
  · rw [htrace]; left; simp only []; omega
  · rw [htrace]; left; simp only []; omega
  · rw [htrace]; right; rfl

/-- C1 fails on the code: on the 100-character blob `blob100`, parsed into the
fresh static vector, the parse loop returns no grid.  Its tenth iteration
executes `puzzle[9][0]`, and the vector has no row 9. -/
theorem blob100_returns_no_grid :
    blob100.length = 100 ∧ freshPuzzle.length = ROWS ∧ ¬ (9 < ROWS) ∧
    ∃ st, parse freshPuzzle blob100 = .error (Halt.outsideVector 9 0, st) := by
  obtain ⟨st, hrun, -⟩ := parse_long freshPuzzle freshPuzzle_isGrid blob100 (by decide)
  exact ⟨by decide, rfl, by decide, st, hrun⟩

/-- C9 fails on the code: on the 100-character blob `blob100` the parse loop
executes the assignments `puzzle[0][9]` and `puzzle[1][19]`, whose column is
not below `COLS`, and `puzzle[9][0]`, whose row is not below `ROWS`. -/
theorem blob100_stores_outside_grid :
    blob100.length = 100 ∧
    ∃ st, parse freshPuzzle blob100 = .error (Halt.outsideVector 9 0, st) ∧
      (0, 9) ∈ st.trace ∧ (1, 19) ∈ st.trace ∧ (9, 0) ∈ st.trace ∧
      ¬ (9 < COLS) ∧ ¬ (19 < COLS) ∧ ¬ (9 < ROWS) := by
  obtain ⟨st, hrun, h1, h2, h3⟩ :=
    parse_stores_outside freshPuzzle freshPuzzle_isGrid blob100 (by decide)
  exact ⟨by decide, st, hrun, h1, h2, h3, by decide, by decide, by decide⟩

/-- C8, as the claim states it, fails: on the empty blob the second call of
`substr`, at position 10 of a string of size 0, throws, and no grid is
returned. -/
theorem parse_empty_blob_throws :
    parse freshPuzzle [] =
      .error (Halt.outOfRange 10 0, { puzzle := freshPuzzle, trace := [] }) := by
  rfl

/-- C8, amended: of the blobs shorter than 100 characters, those of fewer than
90 characters (the empty blob included) make a call `result.substr(start, end)`
throw `std::out_of_range`, its position beyond the size of the blob, and no
grid is returned; on those of 90 characters or more no call of `substr`
throws. -/
theorem parse_short_blob (puzzle : Grid) (hp : IsGrid puzzle) (result : List Char)
    (hlen : result.length < 100) :
    (result.length < 90 ∧
      ∃ pos st, result.length < pos ∧
        parse puzzle result = .error (Halt.outOfRange pos result.length, st)) ∨
    ((90 ≤ result.length ∧ result.length < 100) ∧
      (∀ k ≤ 9, ∃ rowData, substr result (10 * k) (10 * k + 10) = .ok rowData) ∧
      ∀ pos size st, parse puzzle result ≠ .error (Halt.outOfRange pos size, st)) := by
  by_cases h : result.length < 90
  · left
    obtain ⟨st, hrun⟩ := parseFrom_short result h 9 0 { puzzle := puzzle, trace := [] } hp.1 rfl
      (Nat.zero_le _)
    exact ⟨h, _, st, by omega, hrun⟩
  · right
    refine ⟨⟨by omega, hlen⟩, ?_, ?_⟩
    · intro k hk
      refine ⟨(result.drop (10 * k)).take (10 * k + 10), ?_⟩
      unfold substr
      rw [if_neg (by omega)]
    · intro pos size st hrun
      by_cases h90 : result.length = 90
      · obtain ⟨st', hok, -⟩ := parse_ninety puzzle hp result h90
        rw [hok] at hrun
        cases hrun
      · obtain ⟨st', herr, -⟩ := parse_long puzzle hp result (by omega)
        rw [herr] at hrun
        cases hrun

/-- Witness for `parse_short_blob`: the empty blob, parsed into the fresh
static vector. -/
theorem parse_short_blob_witness :
    (([] : List Char).length < 90 ∧
      ∃ pos st, ([] : List Char).length < pos ∧
        parse freshPuzzle [] = .error (Halt.outOfRange pos ([] : List Char).length, st)) ∨
    ((90 ≤ ([] : List Char).length ∧ ([] : List Char).length < 100) ∧
      (∀ k ≤ 9, ∃ rowData, substr [] (10 * k) (10 * k + 10) = .ok rowData) ∧
      ∀ pos size st, parse freshPuzzle [] ≠ .error (Halt.outOfRange pos size, st)) :=
  parse_short_blob freshPuzzle freshPuzzle_isGrid [] (by decide)

/-! ## Checking: properties -/

theorem getTotalEmpty_eq_zero_iff (t : Grid) :
    GridTable.getTotalEmpty t = 0 ↔ ∀ r c, cellAt t r c ≠ some ' ' := by
  unfold GridTable.getTotalEmpty
  rw [List.sum_eq_zero_iff]
  constructor
  · intro h r c hcell
    unfold cellAt at hcell
    cases hrow : t[r]? with
    | none => rw [hrow] at hcell; cases hcell
    | some cells =>
      rw [hrow] at hcell
      have hz := h (cells.count ' ') (List.mem_map.mpr ⟨cells, List.getElem?_mem hrow, rfl⟩)
      exact List.count_eq_zero.mp hz (List.getElem?_mem hcell)
  · intro h n hn
    obtain ⟨cells, hmem, rfl⟩ := List.mem_map.mp hn
    apply List.count_eq_zero.mpr
    intro hin
    obtain ⟨r, hr⟩ := List.getElem?_of_mem hmem
    obtain ⟨c, hc⟩ := List.getElem?_of_mem hin
    apply h r c
    simp only [cellAt, hr]
    exact hc

theorem matchGrid_iff (t other : Grid) :
    GridTable.matchGrid t other = true ↔ ∀ r < 9, ∀ c < 9, cellAt t r c = cellAt other r c := by
  simp [GridTable.matchGrid, ROWS, COLS]

/-- C10: given the solution grid that `getPuzzle(difficulty, true)` returns,
`checkSolution` ends the session exactly when the table has no empty cell and
agrees with the solution on all 81 cells.  One of three things happens: with
an empty cell it prints "incomplete" and returns without fetching; full but
different from the solution in some cell it fetches, prints the mismatch and
returns; full and equal to the solution it prints the congratulation and
exits.  Where it returns, the table is returned unchanged. -/
theorem checkSolution_cases (net : Net) (puzzle : Grid) (difficulty : Char) (t solution : Grid)
    (out : List Event) (hfetch : getPuzzle net puzzle difficulty true = .done out solution) :
    ((∃ o h, checkSolution net puzzle difficulty t = .halt o h) ↔
      (∀ r c, cellAt t r c ≠ some ' ') ∧ ∀ r < 9, ∀ c < 9, cellAt t r c = cellAt solution r c) ∧
    (((∃ r c, cellAt t r c = some ' ') ∧
        checkSolution net puzzle difficulty t =
          .done [Event.checking, Event.incomplete] (t, puzzle)) ∨
      ((∀ r c, cellAt t r c ≠ some ' ') ∧
        (∃ r < 9, ∃ c < 9, cellAt t r c ≠ cellAt solution r c) ∧
        checkSolution net puzzle difficulty t =
          .done ([Event.checking] ++ out ++ [Event.incorrect]) (t, solution)) ∨
      ((∀ r c, cellAt t r c ≠ some ' ') ∧
        (∀ r < 9, ∀ c < 9, cellAt t r c = cellAt solution r c) ∧
        checkSolution net puzzle difficulty t =
          .halt ([Event.checking] ++ out ++ [Event.congratulations]) (Halt.exit 1))) := by
  have hempty : (∃ r c, cellAt t r c = some ' ') →
      checkSolution net puzzle difficulty t =
        .done [Event.checking, Event.incomplete] (t, puzzle) := by
    intro ⟨r, c, hrc⟩
    have hne : GridTable.getTotalEmpty t ≠ 0 := by
      intro h0
      exact (getTotalEmpty_eq_zero_iff t).mp h0 r c hrc
    simp only [checkSolution]
    rw [if_pos hne]
  have hdiff : (∀ r c, cellAt t r c ≠ some ' ') →
      (∃ r < 9, ∃ c < 9, cellAt t r c ≠ cellAt solution r c) →
      checkSolution net puzzle difficulty t =
        .done ([Event.checking] ++ out ++ [Event.incorrect]) (t, solution) := by
    intro hfull hd
    have h0 : ¬ GridTable.getTotalEmpty t ≠ 0 := not_not.mpr ((getTotalEmpty_eq_zero_iff t).mpr hfull)
    have hm : GridTable.matchGrid t solution = false := by
      rw [Bool.eq_false_iff, Ne, matchGrid_iff]
      intro hall
      obtain ⟨r, hr, c, hc, hne⟩ := hd
      exact hne (hall r hr c hc)
    simp only [checkSolution]
    rw [if_neg h0, hfetch]
    simp only [Run.bind, hm, if_true, Run.emit, List.append_assoc]
  have hsame : (∀ r c, cellAt t r c ≠ some ' ') →
      (∀ r < 9, ∀ c < 9, cellAt t r c = cellAt solution r c) →
      checkSolution net puzzle difficulty t =
        .halt ([Event.checking] ++ out ++ [Event.congratulations]) (Halt.exit 1) := by
    intro hfull hs
    have h0 : ¬ GridTable.getTotalEmpty t ≠ 0 := not_not.mpr ((getTotalEmpty_eq_zero_iff t).mpr hfull)
    have hm : GridTable.matchGrid t solution = true := (matchGrid_iff t solution).mpr hs
    simp only [checkSolution]
    rw [if_neg h0, hfetch]
    simp [Run.bind, hm, Run.emit]
  have hcases : (∃ r c, cellAt t r c = some ' ') ∨
      ((∀ r c, cellAt t r c ≠ some ' ') ∧
        (∃ r < 9, ∃ c < 9, cellAt t r c ≠ cellAt solution r c)) ∨
      ((∀ r c, cellAt t r c ≠ some ' ') ∧
        ∀ r < 9, ∀ c < 9, cellAt t r c = cellAt solution r c) := by
    by_cases he : ∃ r c, cellAt t r c = some ' '
    · exact Or.inl he
    · have hfull : ∀ r c, cellAt t r c ≠ some ' ' := fun r c hrc => he ⟨r, c, hrc⟩
      by_cases hs : ∀ r < 9, ∀ c < 9, cellAt t r c = cellAt solution r c
      · exact Or.inr (Or.inr ⟨hfull, hs⟩)
      · refine Or.inr (Or.inl ⟨hfull, ?_⟩)
        by_contra hnd
        apply hs
        intro r hr c hc
        by_contra hne
        exact hnd ⟨r, hr, c, hc, hne⟩
  constructor
  · constructor
    · rintro ⟨o, h, hhalt⟩
      rcases hcases with he | ⟨hfull, hd⟩ | hboth
      · rw [hempty he] at hhalt
        cases hhalt
      · rw [hdiff hfull hd] at hhalt
        cases hhalt
      · exact hboth
    · rintro ⟨hfull, hs⟩
      exact ⟨_, _, hsame hfull hs⟩
  · rcases hcases with he | ⟨hfull, hd⟩ | ⟨hfull, hs⟩
    · exact Or.inl ⟨he, hempty he⟩
    · exact Or.inr (Or.inl ⟨hfull, hd, hdiff hfull hd⟩)
    · exact Or.inr (Or.inr ⟨hfull, hs, hsame hfull hs⟩)

set_option maxRecDepth 100000 in
/-- The cells that `solvedBlob` puts on the grid. -/
theorem solvedBlob_cells :
    ∀ r < 9, ∀ k < 9, (solvedBlob[10 * r + k]?).map cellOf = cellAt solvedGrid r k := by
  decide

/-- Whatever the static vector held, parsing `solvedBlob` returns `solvedGrid`. -/
theorem parse_solvedBlob (puzzle : Grid) (hp : IsGrid puzzle) :
    ∃ st, parse puzzle solvedBlob = .ok st ∧ st.puzzle = solvedGrid := by
  obtain ⟨st, hrun, hg, hc⟩ := parse_ninety puzzle hp solvedBlob (by decide)
  refine ⟨st, hrun, ?_⟩
  apply grid_ext _ _ hg (by decide)
  intro r hr k hk
  rw [hc r hr k hk]
  exact solvedBlob_cells r hr k hk

/-- On `solvedNet` the call `getPuzzle('e', true)` transfers the URL `easy` and
returns `solvedGrid`. -/
theorem getPuzzle_solvedNet :
    getPuzzle solvedNet freshPuzzle 'e' true = .done [Event.fetch easy] solvedGrid := by
  obtain ⟨st, hrun, heq⟩ := parse_solvedBlob freshPuzzle freshPuzzle_isGrid
  have hurl : getURL 'e' true = .done [] easy := rfl
  have hrun' : parse freshPuzzle (solvedNet.perform easy) = .ok st := hrun
  simp only [getPuzzle, hurl, Run.bind, hrun']
  simp [solvedNet, Run.emit, heq]

/-- Witness for `checkSolution_cases`, on the solution that `solvedNet`
delivers: the solved grid ends the session, the grid with one wrong cell is
reported as incorrect and the grid with empty cells as incomplete, both
returned as they were. -/
theorem checkSolution_cases_witness :
    checkSolution solvedNet freshPuzzle 'e' solvedGrid =
      .halt [Event.checking, Event.fetch easy, Event.congratulations] (Halt.exit 1) ∧
    checkSolution solvedNet freshPuzzle 'e' almostSolvedGrid =
      .done [Event.checking, Event.fetch easy, Event.incorrect] (almostSolvedGrid, solvedGrid) ∧
    checkSolution solvedNet freshPuzzle 'e' scenarioGrid =
      .done [Event.checking, Event.incomplete] (scenarioGrid, freshPuzzle) := by
  refine ⟨?_, ?_, ?_⟩
  · rcases (checkSolution_cases solvedNet freshPuzzle 'e' solvedGrid solvedGrid
      [Event.fetch easy] getPuzzle_solvedNet).2 with h | h | h
    · obtain ⟨⟨r, c, hrc⟩, -⟩ := h
      exact absurd hrc ((getTotalEmpty_eq_zero_iff solvedGrid).mp (by decide) r c)
    · obtain ⟨-, ⟨r, -, c, -, hne⟩, -⟩ := h
      exact absurd rfl hne
    · exact h.2.2
  · rcases (checkSolution_cases solvedNet freshPuzzle 'e' almostSolvedGrid solvedGrid
      [Event.fetch easy] getPuzzle_solvedNet).2 with h | h | h
    · obtain ⟨⟨r, c, hrc⟩, -⟩ := h
      exact absurd hrc ((getTotalEmpty_eq_zero_iff almostSolvedGrid).mp (by decide) r c)
    · exact h.2.2
    · exact absurd (h.2.1 0 (by decide) 0 (by decide)) (by decide)
  · rcases (checkSolution_cases solvedNet freshPuzzle 'e' scenarioGrid solvedGrid
      [Event.fetch easy] getPuzzle_solvedNet).2 with h | h | h
    · exact h.2
    · exact absurd rfl (h.1 8 1)
    · exact absurd rfl (h.1 8 1)

/-! ## The step budgets suffice -/

theorem Run.outOfFuel_emit {α : Type} (pre : List Event) (r : Run α) :
    (Run.emit pre r).outOfFuel ↔ r.outOfFuel := by
  cases r <;> rfl

theorem Run.outOfFuel_bind {α β : Type} (r : Run α) (f : α → Run β)
    (h : (r.bind f).outOfFuel) :
    r.outOfFuel ∨ ∃ out a, r = .done out a ∧ (f a).outOfFuel := by
  cases r with
  | done out a => exact Or.inr ⟨out, a, rfl, (Run.outOfFuel_emit out (f a)).mp h⟩
  | halt out e => exact Or.inl h

theorem promptLoop_budget (validate : String → Bool × List Event) (prompt : Event)
    (tokens : List String) (s : String) :
    ¬ (promptLoop validate prompt tokens s).outOfFuel ∧
    ∀ out r, promptLoop validate prompt tokens s = .done out r →
      r.2.length ≤ tokens.length ∧ ((validate s).1 = false → r.2.length < tokens.length) := by
  induction tokens generalizing s with
  | nil =>
    unfold promptLoop
    split
    · next hv =>
      refine ⟨fun h => h, ?_⟩
      intro out r h
      cases h
      exact ⟨le_refl _, fun hf => by rw [hv] at hf; cases hf⟩
    · refine ⟨fun h => (by cases h), ?_⟩
      intro out r h
      cases h
  | cons t ts ih =>
    unfold promptLoop
    split
    · next hv =>
      refine ⟨fun h => h, ?_⟩
      intro out r h
      cases h
      exact ⟨le_refl _, fun hf => by rw [hv] at hf; cases hf⟩
    · refine ⟨fun h => (ih t).1 ((Run.outOfFuel_emit _ _).mp h), ?_⟩
      intro out r h
      cases hrec : promptLoop validate prompt ts t with
      | halt o e => rw [hrec] at h; cases h
      | done o a =>
        rw [hrec] at h
        simp only [Run.emit, Run.done.injEq] at h
        have := ((ih t).2 o a hrec).1
        rw [← h.2]
        simp only [List.length_cons]
        exact ⟨by omega, fun _ => by omega⟩

theorem getPuzzle_budget (net : Net) (puzzle : Grid) (difficulty : Char) (solution : Bool) :
    ¬ (getPuzzle net puzzle difficulty solution).outOfFuel := by
  intro h
  unfold getPuzzle at h
  rcases Run.outOfFuel_bind _ _ h with h1 | ⟨out, url, -, h2⟩
  · unfold getURL at h1
    repeat' split at h1
    all_goals first | exact h1 | cases h1
  · split at h2
    · rw [Run.outOfFuel_emit] at h2
      cases hp : parse puzzle (net.perform url) with
      | ok st => rw [hp] at h2; exact h2
      | error e =>
        rw [hp] at h2
        exact parse_budget _ _ _ hp h2
    · cases h2

theorem checkSolution_budget (net : Net) (puzzle : Grid) (difficulty : Char) (t : Grid) :
    ¬ (checkSolution net puzzle difficulty t).outOfFuel := by
  intro h
  unfold checkSolution at h
  simp only at h
  split at h
  · exact h
  · rw [Run.outOfFuel_emit] at h
    rcases Run.outOfFuel_bind _ _ h with h1 | ⟨out, sol, -, h2⟩
    · exact getPuzzle_budget _ _ _ _ h1
    · split at h2
      · exact h2
      · cases h2

/-- The budget of the game loop is never what stops it, once it exceeds the
number of tokens on standard input: every iteration reads at least one. -/
theorem gameLoop_budget (insert : Grid → Char → List Char → Grid) (net : Net) (difficulty : Char) :
    ∀ (fuel : Nat) (tokens : List String) (table puzzle : Grid), tokens.length < fuel →
      ¬ (gameLoop insert net difficulty fuel tokens table puzzle).outOfFuel := by
  intro fuel
  induction fuel with
  | zero => intro tokens table puzzle h; omega
  | succ n ih =>
    intro tokens table puzzle hlen h
    simp only [gameLoop] at h
    rcases Run.outOfFuel_bind _ _ h with h1 | ⟨out, r, hr, h2⟩
    · unfold printOptions at h1
      rcases Run.outOfFuel_bind _ _ h1 with h3 | ⟨_, _, -, h4⟩
      · exact (promptLoop_budget _ _ _ _).1 h3
      · exact h4
    · have hrlen : r.2.length < tokens.length := by
        unfold printOptions at hr
        cases hrec : promptLoop validateOption Event.optionsMenu tokens "" with
        | halt o e => rw [hrec] at hr; cases hr
        | done o a =>
          rw [hrec] at hr
          simp only [Run.bind, Run.emit, Run.done.injEq] at hr
          rw [← hr.2]
          exact ((promptLoop_budget _ _ _ _).2 o a hrec).2 rfl
      split at h2
      · cases h2
      · split at h2
        · rcases Run.outOfFuel_bind _ _ h2 with h3 | ⟨_, v, hv, h4⟩
          · unfold fetchValue at h3
            rcases Run.outOfFuel_bind _ _ h3 with h5 | ⟨_, _, -, h6⟩
            · exact (promptLoop_budget _ _ _ _).1 h5
            · exact h6
          · have hvlen : v.2.length ≤ r.2.length := by
              unfold fetchValue at hv
              cases hrec : promptLoop validateValue Event.enterValue r.2 "" with
              | halt o e => rw [hrec] at hv; cases hv
              | done o a =>
                rw [hrec] at hv
                simp only [Run.bind, Run.emit, Run.done.injEq] at hv
                rw [← hv.2]
                exact ((promptLoop_budget _ _ _ _).2 o a hrec).1
            rcases Run.outOfFuel_bind _ _ h4 with h5 | ⟨_, xy, hxy, h6⟩
            · unfold fetchCoords at h5
              rcases Run.outOfFuel_bind _ _ h5 with h7 | ⟨_, _, -, h8⟩
              · exact (promptLoop_budget _ _ _ _).1 h7
              · rcases Run.outOfFuel_bind _ _ h8 with h9 | ⟨_, _, -, h10⟩
                · exact (promptLoop_budget _ _ _ _).1 h9
                · exact h10
            · have hxylen : xy.2.length ≤ v.2.length := by
                unfold fetchCoords at hxy
                cases hx : promptLoop validateCoord Event.enterX v.2 "" with
                | halt o e => rw [hx] at hxy; cases hxy
                | done o a =>
                  rw [hx] at hxy
                  simp only [Run.bind] at hxy
                  cases hy : promptLoop validateCoord Event.enterY a.2 "" with
                  | halt o' e => rw [hy] at hxy; cases hxy
                  | done o' b =>
                    rw [hy] at hxy
                    simp only [Run.emit, Run.done.injEq] at hxy
                    rw [← hxy.2]
                    have h1 := ((promptLoop_budget _ _ _ _).2 o a hx).1
                    have h2 := ((promptLoop_budget _ _ _ _).2 o' b hy).1
                    simp only
                    omega
              rw [Run.outOfFuel_emit] at h6
              exact ih _ _ _ (by omega) h6
        · split at h2
          · rw [Run.outOfFuel_emit] at h2
            exact ih _ _ _ (by omega) h2
          · split at h2
            · rcases Run.outOfFuel_bind _ _ h2 with h3 | ⟨_, tp, -, h4⟩
              · exact checkSolution_budget _ _ _ _ h3
              · exact ih _ _ _ (by omega) h4
            · cases h2

end Sudoku
